import Mathlib

/-
Shallow embedding of the boids simulation core of `src/main.rs` (bevy-boids).

Scalars are modelled as real numbers; `glam::Vec3` becomes a structure of three
reals.  `glam`'s `Vec3::normalize` documents that its result is non-finite (NaN
components) when the input has zero length; that degenerate outcome is modelled
as `none`, and a velocity that has become NaN is likewise carried as `none`.
The bevy ECS plumbing (queries, events, the kd-tree resource) is modelled as
explicit lists: the event queue of `UpdateVelocity` events is a list of
`(entity, delta)` pairs, the `Query<(&mut Velocity, ...)>` store is an
association list from entity id to velocity, and the `KDTree3<Boid>` snapshot
is a list of `(position, Option entity)` pairs as returned by
`bevy_spatial`'s `within_distance`.
-/

open scoped Classical

noncomputable section

namespace Boids

/-- A `glam::Vec3` (components are `f32` in the source, modelled as reals). -/
structure Vec3 where
  x : ℝ
  y : ℝ
  z : ℝ

namespace Vec3

/-- Componentwise addition (`Vec3 + Vec3`). -/
def add (a b : Vec3) : Vec3 := ⟨a.x + b.x, a.y + b.y, a.z + b.z⟩

/-- Componentwise subtraction (`Vec3 - Vec3`). -/
def sub (a b : Vec3) : Vec3 := ⟨a.x - b.x, a.y - b.y, a.z - b.z⟩

/-- Scalar multiplication (`f32 * Vec3` / `Vec3 * f32`). -/
def smul (c : ℝ) (v : Vec3) : Vec3 := ⟨c * v.x, c * v.y, c * v.z⟩

/-- Scalar division (`Vec3 / f32`), componentwise as in `glam`. -/
def divScalar (v : Vec3) (c : ℝ) : Vec3 := ⟨v.x / c, v.y / c, v.z / c⟩

/-- `Vec3::ZERO`. -/
def zero : Vec3 := ⟨0, 0, 0⟩

/-- `Vec3::dot`. -/
def dot (a b : Vec3) : ℝ := a.x * b.x + a.y * b.y + a.z * b.z

/-- `Vec3::length_squared`. -/
def normSq (v : Vec3) : ℝ := v.x ^ 2 + v.y ^ 2 + v.z ^ 2

/-- `Vec3::length` (the Euclidean norm). -/
def length (v : Vec3) : ℝ := Real.sqrt (normSq v)

/-- `glam`'s `Vec3::normalize` is `self * self.length().recip()`.  When the
length is zero the `f32` result is `0 * inf`, i.e. every component is NaN
(`glam` documents the result as non-finite for zero-length input); that
outcome is modelled as `none`. -/
def normalize (v : Vec3) : Option Vec3 :=
  if v = zero then none else some (smul (1 / length v) v)

/-- `glam`'s `Vec3::try_normalize`: `Some` of the normalized vector when the
length is positive (and finite), `None` otherwise. -/
def try_normalize (v : Vec3) : Option Vec3 :=
  if v = zero then none else some (smul (1 / length v) v)

/-- `glam`'s `Vec3::angle_between`:
`acos(self.dot(rhs) / sqrt(self.length_squared() * rhs.length_squared()))`. -/
def angle_between (a b : Vec3) : ℝ :=
  Real.arccos (dot a b / Real.sqrt (normSq a * normSq b))

end Vec3

/-- `MAX_VELOCITY` in `update_velocity`. -/
def MAX_VELOCITY : ℝ := 500

/-- `MIN_VELOCITY` in `update_velocity`. -/
def MIN_VELOCITY : ℝ := 50

/-- The `BORDER` constant of `avoid_edges`. -/
def BORDER : ℝ := 10

/-- `VIEW_ANGLE` in `boid_rules`: `std::f32::consts::PI / 3.0`. -/
def VIEW_ANGLE : ℝ := Real.pi / 3

/-- The body of the `update_velocity` event loop after the delta has been
added: `let friction = v * 0.1; v -= friction * dt`, starting from
`v += delta`.  This is the velocity that the two speed clamps then see. -/
def postFriction (v delta : Vec3) (dt : ℝ) : Vec3 :=
  let v1 := Vec3.add v delta
  Vec3.sub v1 (Vec3.smul dt (Vec3.smul 0.1 v1))

/-- `if v.length() > MAX_VELOCITY { v = v.normalize() * MAX_VELOCITY }`. -/
def clampMax (v : Vec3) : Option Vec3 :=
  if Vec3.length v > MAX_VELOCITY
  then Option.map (Vec3.smul MAX_VELOCITY) (Vec3.normalize v)
  else some v

/-- `if v.length() < MIN_VELOCITY { v = v.normalize() * MIN_VELOCITY }`. -/
def clampMin (v : Vec3) : Option Vec3 :=
  if Vec3.length v < MIN_VELOCITY
  then Option.map (Vec3.smul MIN_VELOCITY) (Vec3.normalize v)
  else some v

/-- One velocity-integration step of `update_velocity` for a single
`UpdateVelocity(entity, delta)` event: add the delta, apply friction, clamp
the speed from above and then from below.  `none` means the stored velocity
has become non-finite (NaN). -/
def update_velocity (v delta : Vec3) (dt : ℝ) : Option Vec3 :=
  (clampMax (postFriction v delta dt)).bind clampMin

/-- `birds.get_mut(*entity)` on the association-list model of the
`Query<(&mut Velocity, &mut Transform)>`: the stored velocity for an entity
id, or `none` when the id is unknown/removed. -/
def lookupBird : List (Nat × Option Vec3) → Nat → Option (Option Vec3)
  | [], _ => none
  | b :: rest, e => if b.1 = e then some b.2 else lookupBird rest e

/-- Store a new velocity for an entity id. -/
def setBird : List (Nat × Option Vec3) → Nat → Option Vec3 → List (Nat × Option Vec3)
  | [], _, _ => []
  | b :: rest, e, w => if b.1 = e then (b.1, w) :: rest else b :: setBird rest e w

/-- The `update_velocity` system's loop over the batch of `UpdateVelocity`
events.  The source reads

`let Ok(mut bird) = birds.get_mut(*entity) else { return; };`

so an unknown entity id makes the whole system function return, abandoning
every remaining event of the batch (not `continue`).  A stored velocity of
`none` (already NaN) stays NaN. -/
def processEvents (dt : ℝ) : List (Nat × Vec3) → List (Nat × Option Vec3) → List (Nat × Option Vec3)
  | [], birds => birds
  | (e, vel) :: rest, birds =>
    match lookupBird birds e with
    | none => birds
    | some v => processEvents dt rest (setBird birds e (v.bind fun w => update_velocity w vel dt))

/-- The `update_pos` system, per agent:
`transform.translation += velocity.0 * 0.5 * time.delta_secs()`. -/
def update_pos (translation v : Vec3) (dt : ℝ) : Vec3 :=
  Vec3.add translation (Vec3.smul dt (Vec3.smul 0.5 v))

/-- Modelled from the spec: the position integrator the specification
describes, `position += velocity * dt` (full forward Euler, no extra scale
factor).  This is the comparison target for the claim about `update_pos`;
it is not in the source. -/
def forwardEulerSpec (translation v : Vec3) (dt : ℝ) : Vec3 :=
  Vec3.add translation (Vec3.smul dt v)

/-- The averaging helper of the source at the element type it is used with
(`Vec3`, which is `Add` and `Div<f32>`):

`let (sum, len) = it.fold((first, 0), |(a, count), e| (a + e, count + 1));
 if len == 0 { sum } else { sum / len as f32 }`. -/
def average (first : Vec3) (it : List Vec3) : Vec3 :=
  let s := it.foldl (fun (a : Vec3 × Nat) e => (Vec3.add a.1 e, a.2 + 1)) (first, 0)
  if s.2 = 0 then s.1 else Vec3.divScalar s.1 (s.2 : ℝ)

/-- The sum of a list of vectors (specification-side helper for stating what
`average` computes). -/
def sumVec : List Vec3 → Vec3
  | [] => Vec3.zero
  | v :: rest => Vec3.add v (sumVec rest)

/-- `avoid_edges`: the distance from a translation to the nearest window
edge, `(w/2 - x.abs()).min(h/2 - y.abs())` for a window of width `w` and
height `h` centred at the origin. -/
def distance_to_edge (w h : ℝ) (p : Vec3) : ℝ :=
  min (w / 2 - |p.x|) (h / 2 - |p.y|)

/-- The per-agent delta of the `avoid_edges` system:
`if d < BORDER { (Vec3::ZERO - translation) / (d.max(0.01) / 40.0) } else { Vec3::ZERO }`. -/
def avoid_delta (w h : ℝ) (p : Vec3) : Vec3 :=
  if distance_to_edge w h p < BORDER
  then Vec3.divScalar (Vec3.sub Vec3.zero p) (max (distance_to_edge w h p) 0.01 / 40)
  else Vec3.zero

/-- The `avoid_edges` system: for every bird (whatever its velocity) it sends
one `UpdateVelocity(entity, avoid_delta * dt)` event. -/
def avoid_edges (w h dt : ℝ) (birds : List (Nat × Vec3)) : List (Nat × Vec3) :=
  birds.map fun b => (b.1, Vec3.smul dt (avoid_delta w h b.2))

/-- The live-tunable `BoidArgs` resource (source keeps the spelling
`seperation`). -/
structure BoidArgs where
  cohesion : ℝ
  alignment : ℝ
  seperation : ℝ
  range : ℝ

/-- `bevy_spatial`'s `KDTree3::within_distance(center, radius)` on a tree
snapshot, modelled as the list of stored `(position, Option entity)` pairs
whose position lies within `radius` of `center`. -/
def within_distance (tree : List (Vec3 × Option Nat)) (center : Vec3) (radius : ℝ) :
    List (Vec3 × Option Nat) :=
  tree.filterMap fun q =>
    if Vec3.normSq (Vec3.sub q.1 center) ≤ radius ^ 2 then some q else none

/-- The kd-tree snapshot the `AutomaticUpdate::<Boid>` plugin rebuilds from
the boids' `Transform`s: one `(position, Some entity)` entry per bird,
independent of its velocity.  A bird here is `(entity, velocity, position)`. -/
def treeOf (birds : List (Nat × Vec3 × Vec3)) : List (Vec3 × Option Nat) :=
  birds.map fun b => (b.2.2, some b.1)

/-- The cohesion input of `boid_rules`: positions of query results filtered by
`(p - my_pos).angle_between(my_dir) < VIEW_ANGLE`. -/
def cohesionInputs (my_pos my_dir : Vec3) (qs : List (Vec3 × Option Nat)) : List Vec3 :=
  (qs.map fun q => q.1).filterMap fun p =>
    if Vec3.angle_between (Vec3.sub p my_pos) my_dir < VIEW_ANGLE then some p else none

/-- `boid_rules`' cohesion rule:
`average(Vec3::ZERO, filtered positions) - my_pos`.  Note that the seed of the
average is `Vec3::ZERO`, not `my_pos`. -/
def cohesion_delta (my_pos my_dir : Vec3) (qs : List (Vec3 × Option Nat)) : Vec3 :=
  Vec3.sub (average Vec3.zero (cohesionInputs my_pos my_dir qs)) my_pos

/-- `birds.get(e)` restricted to the velocity component, for the alignment
rule. -/
def lookupVel : List (Nat × Vec3 × Vec3) → Nat → Option Vec3
  | [], _ => none
  | b :: rest, e => if b.1 = e then some b.2.1 else lookupVel rest e

/-- The alignment input of `boid_rules`: the `filter_map` that keeps the
velocity of every query result that passes the view-cone test and is not the
agent itself (and whose entity is present and found in the query). -/
def alignmentInputs (birds : List (Nat × Vec3 × Vec3)) (my_entity : Nat)
    (my_pos my_dir : Vec3) (qs : List (Vec3 × Option Nat)) : List Vec3 :=
  qs.filterMap fun q =>
    if Vec3.angle_between (Vec3.sub q.1 my_pos) my_dir < VIEW_ANGLE ∧ q.2 ≠ some my_entity
    then q.2.bind (lookupVel birds) else none

/-- `boid_rules`' alignment rule: `average(Vec3::ZERO, alignment inputs)`. -/
def align_delta (birds : List (Nat × Vec3 × Vec3)) (my_entity : Nat)
    (my_pos my_dir : Vec3) (qs : List (Vec3 × Option Nat)) : Vec3 :=
  average Vec3.zero (alignmentInputs birds my_entity my_pos my_dir qs)

/-- The separation input of `boid_rules`.  The source chains
`.map(|(p, _)| my_pos - p)` BEFORE
`.filter(|p| (p - my_pos).angle_between(my_dir) < VIEW_ANGLE)`, so the
filter's `p` is already `my_pos - neighbor_pos` and the tested vector is
`(my_pos - neighbor_pos) - my_pos = -neighbor_pos`; finally
`.map(|v| v / (v.length().max(0.001) / range))`. -/
def separationInputs (my_pos my_dir : Vec3) (range : ℝ)
    (qs : List (Vec3 × Option Nat)) : List Vec3 :=
  ((qs.map fun q => Vec3.sub my_pos q.1).filterMap fun p =>
    if Vec3.angle_between (Vec3.sub p my_pos) my_dir < VIEW_ANGLE then some p else none).map
    fun v => Vec3.divScalar v (max (Vec3.length v) 0.001 / range)

/-- `boid_rules`' separation rule: `average(Vec3::ZERO, separation inputs)`
(source spelling `seperation_delta`). -/
def seperation_delta (my_pos my_dir : Vec3) (range : ℝ)
    (qs : List (Vec3 × Option Nat)) : Vec3 :=
  average Vec3.zero (separationInputs my_pos my_dir range qs)

/-- The `boid_rules` system: for each bird, skip it (`continue`) when
`velocity.try_normalize()` is `None`; otherwise query the tree snapshot within
`range` of its position, combine the three weighted rule deltas, and send one
`UpdateVelocity(entity, del * dt)` event. -/
def boid_rules (args : BoidArgs) (dt : ℝ) (birds : List (Nat × Vec3 × Vec3))
    (tree : List (Vec3 × Option Nat)) : List (Nat × Vec3) :=
  birds.filterMap fun b =>
    match Vec3.try_normalize b.2.1 with
    | none => none
    | some my_dir =>
      let my_pos := b.2.2
      let qs := within_distance tree my_pos args.range
      let del := Vec3.add
        (Vec3.add (Vec3.smul args.cohesion (cohesion_delta my_pos my_dir qs))
          (Vec3.smul args.alignment (align_delta birds b.1 my_pos my_dir qs)))
        (Vec3.smul args.seperation (seperation_delta my_pos my_dir args.range qs))
      some (b.1, Vec3.smul dt del)

theorem Vec3.mk_eta (v : Vec3) : Vec3.mk v.x v.y v.z = v := rfl

theorem Vec3.ext_eq (a b : Vec3) (hx : a.x = b.x) (hy : a.y = b.y) (hz : a.z = b.z) :
    a = b := by
  rw [← Vec3.mk_eta a, ← Vec3.mk_eta b, hx, hy, hz]

theorem Vec3.normSq_nonneg (v : Vec3) : 0 ≤ v.normSq := by
  unfold Vec3.normSq; positivity

theorem Vec3.normSq_eq_zero_iff (v : Vec3) : v.normSq = 0 ↔ v = Vec3.zero := by
  unfold Vec3.normSq Vec3.zero
  constructor
  · intro h
    have hx : v.x = 0 := by nlinarith [sq_nonneg v.x, sq_nonneg v.y, sq_nonneg v.z]
    have hy : v.y = 0 := by nlinarith [sq_nonneg v.x, sq_nonneg v.y, sq_nonneg v.z]
    have hz : v.z = 0 := by nlinarith [sq_nonneg v.x, sq_nonneg v.y, sq_nonneg v.z]
    rw [← Vec3.mk_eta v, hx, hy, hz]
  · intro h
    rw [h]
    norm_num

theorem Vec3.length_nonneg (v : Vec3) : 0 ≤ v.length := Real.sqrt_nonneg _

theorem Vec3.length_zero : Vec3.length Vec3.zero = 0 := by
  unfold Vec3.length Vec3.normSq Vec3.zero
  simp

theorem Vec3.normSq_pos_of_ne (v : Vec3) (h : v ≠ Vec3.zero) : 0 < v.normSq :=
  lt_of_le_of_ne (Vec3.normSq_nonneg v) fun heq =>
    h ((Vec3.normSq_eq_zero_iff v).mp heq.symm)

theorem Vec3.length_pos_of_ne (v : Vec3) (h : v ≠ Vec3.zero) : 0 < v.length :=
  Real.sqrt_pos.mpr (Vec3.normSq_pos_of_ne v h)

theorem Vec3.sq_length (v : Vec3) : v.length ^ 2 = v.normSq :=
  Real.sq_sqrt (Vec3.normSq_nonneg v)

theorem Vec3.normSq_smul (c : ℝ) (v : Vec3) :
    (Vec3.smul c v).normSq = c ^ 2 * v.normSq := by
  unfold Vec3.smul Vec3.normSq
  ring

theorem Vec3.length_smul (c : ℝ) (v : Vec3) :
    (Vec3.smul c v).length = |c| * v.length := by
  unfold Vec3.length
  rw [Vec3.normSq_smul, Real.sqrt_mul (sq_nonneg c), Real.sqrt_sq_eq_abs]

theorem Vec3.length_normalized (v : Vec3) (h : v ≠ Vec3.zero) :
    (Vec3.smul (1 / v.length) v).length = 1 := by
  have hL : 0 < v.length := Vec3.length_pos_of_ne v h
  rw [Vec3.length_smul, abs_of_pos (by positivity), one_div, inv_mul_cancel₀ (ne_of_gt hL)]

theorem div_div_inner (a m r : ℝ) : a / (m / r) = r / m * a := by
  rw [div_div_eq_mul_div]
  ring

theorem Vec3.divScalar_div_eq_smul (v : Vec3) (m r : ℝ) :
    Vec3.divScalar v (m / r) = Vec3.smul (r / m) v := by
  apply Vec3.ext_eq <;>
  · simp only [Vec3.divScalar, Vec3.smul]
    exact div_div_inner _ m r

theorem Vec3.smul_smul (c d : ℝ) (v : Vec3) :
    Vec3.smul c (Vec3.smul d v) = Vec3.smul (c * d) v := by
  apply Vec3.ext_eq <;>
  · unfold Vec3.smul
    ring

theorem Vec3.add_zero_left (v : Vec3) : Vec3.add Vec3.zero v = v := by
  apply Vec3.ext_eq <;>
  · unfold Vec3.add Vec3.zero
    norm_num

theorem Vec3.add_assoc (a b c : Vec3) :
    Vec3.add (Vec3.add a b) c = Vec3.add a (Vec3.add b c) := by
  apply Vec3.ext_eq <;>
  · unfold Vec3.add
    ring

theorem average_fold (l : List Vec3) (a : Vec3) (n : Nat) :
    l.foldl (fun (acc : Vec3 × Nat) e => (Vec3.add acc.1 e, acc.2 + 1)) (a, n) =
      (Vec3.add a (sumVec l), n + l.length) := by
  induction l generalizing a n with
  | nil =>
    simp only [List.foldl_nil, List.length_nil, Nat.add_zero, sumVec]
    rw [Prod.mk.injEq]
    refine ⟨?_, rfl⟩
    apply Vec3.ext_eq <;>
    · unfold Vec3.add Vec3.zero
      norm_num
  | cons e t ih =>
    simp only [List.foldl_cons, ih, sumVec, List.length_cons]
    rw [Prod.mk.injEq]
    constructor
    · rw [Vec3.add_assoc]
    · omega

theorem Vec3.sub_mk (a b c d e f : ℝ) :
    Vec3.sub (Vec3.mk a b c) (Vec3.mk d e f) = Vec3.mk (a - d) (b - e) (c - f) := rfl

theorem Vec3.add_zero_right (v : Vec3) : Vec3.add v Vec3.zero = v := by
  apply Vec3.ext_eq <;>
  · unfold Vec3.add Vec3.zero
    norm_num

theorem Vec3.divScalar_one (u : Vec3) : Vec3.divScalar u 1 = u := by
  apply Vec3.ext_eq <;>
  · unfold Vec3.divScalar
    norm_num

theorem average_single (u : Vec3) : average Vec3.zero [u] = u := by
  simp only [average, average_fold, Nat.zero_add, List.length_cons, List.length_nil]
  rw [if_neg one_ne_zero]
  simp only [sumVec, Nat.cast_one]
  rw [Vec3.add_zero_right, Vec3.add_zero_left, Vec3.divScalar_one]

/-- The view-cone angle of a point straight ahead along the heading is 0. -/
theorem angle_axis_pos (a : ℝ) (ha : 0 < a) :
    Vec3.angle_between (Vec3.mk a 0 0) (Vec3.mk 1 0 0) = 0 := by
  unfold Vec3.angle_between Vec3.dot Vec3.normSq
  simp only
  rw [show (a ^ 2 + (0 : ℝ) ^ 2 + (0 : ℝ) ^ 2) * ((1 : ℝ) ^ 2 + 0 ^ 2 + 0 ^ 2) = a ^ 2 by ring,
    Real.sqrt_sq ha.le,
    show a * 1 + (0 : ℝ) * 0 + (0 : ℝ) * 0 = a by ring,
    div_self (ne_of_gt ha)]
  exact Real.arccos_one

theorem view_angle_pos : 0 < VIEW_ANGLE := by
  unfold VIEW_ANGLE
  exact div_pos Real.pi_pos (by norm_num)

/-- The view-cone angle of a point straight behind the heading is π. -/
theorem angle_axis_neg (a : ℝ) (ha : 0 < a) :
    Vec3.angle_between (Vec3.mk (-a) 0 0) (Vec3.mk 1 0 0) = Real.pi := by
  unfold Vec3.angle_between Vec3.dot Vec3.normSq
  simp only
  rw [show ((-a) ^ 2 + (0 : ℝ) ^ 2 + (0 : ℝ) ^ 2) * ((1 : ℝ) ^ 2 + 0 ^ 2 + 0 ^ 2) = a ^ 2 by ring,
    Real.sqrt_sq ha.le,
    show (-a) * 1 + (0 : ℝ) * 0 + (0 : ℝ) * 0 = -a by ring,
    neg_div, div_self (ne_of_gt ha)]
  exact Real.arccos_neg_one

theorem pi_not_lt_view_angle : ¬ (Real.pi < VIEW_ANGLE) := by
  unfold VIEW_ANGLE
  intro hcon
  linarith [Real.pi_pos]

/-- The angle between (60,−60,0) and the +x axis is π/4. -/
theorem angle_diag_sixty :
    Vec3.angle_between (Vec3.mk 60 (-60) 0) (Vec3.mk 1 0 0) = Real.pi / 4 := by
  unfold Vec3.angle_between Vec3.dot Vec3.normSq
  simp only
  have h2 : Real.sqrt 2 * Real.sqrt 2 = 2 := Real.mul_self_sqrt (by norm_num)
  have hs2pos : 0 < Real.sqrt 2 := Real.sqrt_pos.mpr (by norm_num)
  rw [show ((60 : ℝ) ^ 2 + (-60) ^ 2 + 0 ^ 2) * (1 ^ 2 + 0 ^ 2 + 0 ^ 2) = 3600 * 2 by ring,
    Real.sqrt_mul (by norm_num : (0 : ℝ) ≤ 3600),
    show (3600 : ℝ) = 60 ^ 2 by norm_num,
    Real.sqrt_sq (by norm_num : (0 : ℝ) ≤ 60),
    show (60 : ℝ) * 1 + (-60) * 0 + 0 * 0 = 60 by ring]
  have hratio : (60 : ℝ) / (60 * Real.sqrt 2) = Real.sqrt 2 / 2 := by
    rw [div_eq_div_iff (by positivity) (by norm_num : (2 : ℝ) ≠ 0)]
    linear_combination (-60 : ℝ) * h2
  rw [hratio, ← Real.cos_pi_div_four,
    Real.arccos_cos (by linarith [Real.pi_pos]) (by linarith [Real.pi_pos])]

theorem Vec3.length_mk_x (a : ℝ) (ha : 0 ≤ a) : Vec3.length (Vec3.mk a 0 0) = a := by
  unfold Vec3.length Vec3.normSq
  simp only
  rw [show a ^ 2 + (0 : ℝ) ^ 2 + (0 : ℝ) ^ 2 = a ^ 2 by ring, Real.sqrt_sq ha]

/-- C10: the averaging helper is total and division-guarded: with an empty
iterator it returns the seed `first` unchanged (the `len == 0` branch, no
division), and with `n > 0` items it returns `(first + sum of the items) / n`,
so that seeded with the zero vector it is the exact arithmetic mean of the
items. -/
theorem C10_average_total (first : Vec3) (l : List Vec3) (h : l ≠ []) :
    average first [] = first ∧
    average first l = Vec3.divScalar (Vec3.add first (sumVec l)) (l.length : ℝ) ∧
    average Vec3.zero l = Vec3.divScalar (sumVec l) (l.length : ℝ) := by
  have hlen : l.length ≠ 0 := by
    simpa using h
  refine ⟨?_, ?_, ?_⟩
  · simp [average]
  · simp only [average, average_fold, Nat.zero_add]
    rw [if_neg hlen]
  · simp only [average, average_fold, Nat.zero_add]
    rw [if_neg hlen, Vec3.add_zero_left]

theorem C10_average_total_witness :
    average (Vec3.mk 1 2 3) [] = Vec3.mk 1 2 3 ∧
    average (Vec3.mk 1 2 3) [Vec3.mk 3 4 5] =
      Vec3.divScalar (Vec3.add (Vec3.mk 1 2 3) (sumVec [Vec3.mk 3 4 5])) ((1 : Nat) : ℝ) ∧
    average Vec3.zero [Vec3.mk 3 4 5] =
      Vec3.divScalar (sumVec [Vec3.mk 3 4 5]) ((1 : Nat) : ℝ) :=
  C10_average_total (Vec3.mk 1 2 3) [Vec3.mk 3 4 5] (by simp)

/-- C4 counterexample: `update_pos` is NOT the full forward-Euler update the
claim states.  At position (0,0,0), velocity (10,0,0), dt = 1 the code moves
the agent by (5,0,0), not (10,0,0): the source multiplies by the extra factor
0.5 in `transform.translation += velocity.0 * 0.5 * time.delta_secs()`. -/
theorem C4_update_pos_not_full_euler :
    update_pos Vec3.zero (Vec3.mk 10 0 0) 1 ≠ forwardEulerSpec Vec3.zero (Vec3.mk 10 0 0) 1 := by
  intro h
  have hx := congrArg Vec3.x h
  simp only [update_pos, forwardEulerSpec, Vec3.add, Vec3.smul, Vec3.zero] at hx
  norm_num at hx

/-- C4 amended: the position-integration step is a half-step forward-Euler
update: `position += velocity * 0.5 * dt`, i.e. forward Euler applied to half
the just-updated velocity. -/
theorem C4_update_pos_half_step (p v : Vec3) (dt : ℝ) :
    update_pos p v dt = forwardEulerSpec p (Vec3.smul 0.5 v) dt := rfl

theorem update_velocity_zero_input :
    update_velocity Vec3.zero Vec3.zero 1 = none := by
  have h0 : postFriction Vec3.zero Vec3.zero 1 = Vec3.zero := by
    apply Vec3.ext_eq <;>
      simp [postFriction, Vec3.add, Vec3.sub, Vec3.smul, Vec3.zero]
  unfold update_velocity
  rw [h0]
  unfold clampMax
  rw [if_neg]
  · rw [Option.some_bind]
    unfold clampMin
    rw [if_pos]
    · unfold Vec3.normalize
      rw [if_pos rfl]
      rfl
    · rw [Vec3.length_zero]
      norm_num [MIN_VELOCITY]
  · rw [Vec3.length_zero]
    norm_num [MAX_VELOCITY]

/-- C5: at the failing input (velocity (0,0,0), delta (0,0,0), dt = 1) the
minimum-speed clamp normalizes the zero vector, so the resulting velocity is
non-finite (NaN components, modelled `none`) instead of being left at zero:
the code violates the claim's "a zero velocity is left at zero" and "never
NaN". -/
theorem C5_zero_velocity_clamp_nan :
    update_velocity Vec3.zero Vec3.zero 1 = none :=
  update_velocity_zero_input

/-- C1 counterexample: at velocity (0,0,0), delta (0,0,0), dt = 1 the
integration step's result is NaN (modelled `none`), so the claimed bound
`MIN_SPEED ≤ |velocity| ≤ MAX_SPEED` fails after this step. -/
theorem C1_speed_bound_fails_at_zero :
    ¬ ∃ u, update_velocity Vec3.zero Vec3.zero 1 = some u ∧
      MIN_VELOCITY ≤ Vec3.length u ∧ Vec3.length u ≤ MAX_VELOCITY := by
  rintro ⟨u, hu, -, -⟩
  rw [update_velocity_zero_input] at hu
  exact Option.noConfusion hu

/-- C1 amended: whenever the velocity after applying the delta and friction is
non-zero, the integration step succeeds and the resulting speed satisfies
`MIN_SPEED ≤ |velocity| ≤ MAX_SPEED` (MIN_SPEED = 50, MAX_SPEED = 500). -/
theorem C1_speed_bound (v delta : Vec3) (dt : ℝ)
    (h : postFriction v delta dt ≠ Vec3.zero) :
    ∃ u, update_velocity v delta dt = some u ∧
      MIN_VELOCITY ≤ Vec3.length u ∧ Vec3.length u ≤ MAX_VELOCITY := by
  have hL : 0 < Vec3.length (postFriction v delta dt) :=
    Vec3.length_pos_of_ne _ h
  unfold update_velocity clampMax
  by_cases hmax : Vec3.length (postFriction v delta dt) > MAX_VELOCITY
  · rw [if_pos hmax]
    unfold Vec3.normalize
    rw [if_neg h, Option.map_some', Option.some_bind]
    have hu : Vec3.length (Vec3.smul MAX_VELOCITY
        (Vec3.smul (1 / Vec3.length (postFriction v delta dt)) (postFriction v delta dt))) =
        MAX_VELOCITY := by
      rw [Vec3.length_smul, Vec3.length_normalized _ h, mul_one,
        abs_of_pos (show (0 : ℝ) < MAX_VELOCITY by norm_num [MAX_VELOCITY])]
    refine ⟨Vec3.smul MAX_VELOCITY
      (Vec3.smul (1 / Vec3.length (postFriction v delta dt)) (postFriction v delta dt)),
      ?_, ?_, ?_⟩
    · unfold clampMin
      rw [if_neg]
      rw [hu]
      norm_num [MIN_VELOCITY, MAX_VELOCITY]
    · rw [hu]
      norm_num [MIN_VELOCITY, MAX_VELOCITY]
    · rw [hu]
  · rw [if_neg hmax, Option.some_bind]
    unfold clampMin
    by_cases hmin : Vec3.length (postFriction v delta dt) < MIN_VELOCITY
    · rw [if_pos hmin]
      unfold Vec3.normalize
      rw [if_neg h, Option.map_some']
      have hu : Vec3.length (Vec3.smul MIN_VELOCITY
          (Vec3.smul (1 / Vec3.length (postFriction v delta dt)) (postFriction v delta dt))) =
          MIN_VELOCITY := by
        rw [Vec3.length_smul, Vec3.length_normalized _ h, mul_one,
          abs_of_pos (show (0 : ℝ) < MIN_VELOCITY by norm_num [MIN_VELOCITY])]
      refine ⟨_, rfl, le_of_eq hu.symm, ?_⟩
      rw [hu]
      norm_num [MIN_VELOCITY, MAX_VELOCITY]
    · rw [if_neg hmin]
      exact ⟨_, rfl, not_lt.mp hmin, not_lt.mp hmax⟩

theorem C1_speed_bound_witness :
    postFriction (Vec3.mk 100 0 0) Vec3.zero 0 ≠ Vec3.zero ∧
    ∃ u, update_velocity (Vec3.mk 100 0 0) Vec3.zero 0 = some u ∧
      MIN_VELOCITY ≤ Vec3.length u ∧ Vec3.length u ≤ MAX_VELOCITY := by
  have h : postFriction (Vec3.mk 100 0 0) Vec3.zero 0 ≠ Vec3.zero := by
    intro heq
    have hx := congrArg Vec3.x heq
    simp [postFriction, Vec3.add, Vec3.sub, Vec3.smul, Vec3.zero] at hx
  exact ⟨h, C1_speed_bound (Vec3.mk 100 0 0) Vec3.zero 0 h⟩

/-- C6: the velocity integrator's event loop uses
`let Ok(mut bird) = birds.get_mut(*entity) else { return; }`, so an unknown
agent id aborts the WHOLE batch, not just that record.  With birds 0 and 1,
the batch [(5, δ), (1, δ₁)] (id 5 unknown) leaves bird 1 untouched — yet the
same record [(1, δ₁)] on its own would have updated bird 1 to velocity
(200,0,0). -/
theorem C6_unknown_id_aborts_batch :
    processEvents 0 [(5, Vec3.mk 1 0 0), (1, Vec3.mk 100 0 0)]
        [(0, some (Vec3.mk 10 10 0)), (1, some (Vec3.mk 100 0 0))] =
      [(0, some (Vec3.mk 10 10 0)), (1, some (Vec3.mk 100 0 0))] ∧
    processEvents 0 [(1, Vec3.mk 100 0 0)]
        [(0, some (Vec3.mk 10 10 0)), (1, some (Vec3.mk 100 0 0))] =
      [(0, some (Vec3.mk 10 10 0)), (1, some (Vec3.mk 200 0 0))] := by
  have hupd : update_velocity (Vec3.mk 100 0 0) (Vec3.mk 100 0 0) 0 = some (Vec3.mk 200 0 0) := by
    have hpf : postFriction (Vec3.mk 100 0 0) (Vec3.mk 100 0 0) 0 = Vec3.mk 200 0 0 := by
      apply Vec3.ext_eq <;>
        simp [postFriction, Vec3.add, Vec3.sub, Vec3.smul]
      norm_num
    have hlen : Vec3.length (Vec3.mk 200 0 0) = 200 := Vec3.length_mk_x 200 (by norm_num)
    unfold update_velocity
    rw [hpf]
    unfold clampMax
    rw [if_neg]
    · rw [Option.some_bind]
      unfold clampMin
      rw [if_neg]
      rw [hlen]
      norm_num [MIN_VELOCITY]
    · rw [hlen]
      norm_num [MAX_VELOCITY]
  constructor
  · simp [processEvents, lookupBird]
  · simp [processEvents, lookupBird, setBird, hupd, Option.bind_some]

/-- C2 counterexample: an agent at (100,0,0) whose filtered neighbor set is
empty gets cohesion delta (−100,0,0), not the zero vector: the `average` in
the source is seeded with `Vec3::ZERO`, not with the agent's own position, so
the empty case yields `ZERO - my_pos`. -/
theorem C2_cohesion_empty_not_zero :
    cohesion_delta (Vec3.mk 100 0 0) (Vec3.mk 1 0 0) [] ≠ Vec3.zero := by
  intro h
  have hx := congrArg Vec3.x h
  simp [cohesion_delta, cohesionInputs, average, Vec3.sub, Vec3.zero] at hx

/-- C2 amended: for every agent whose filtered neighbor set is empty, the
`average` returns its seed `Vec3::ZERO`, so the cohesion delta is
`ZERO − p = −p` (a pull toward the world origin), not the zero vector; no
division by zero occurs (the `len == 0` branch returns the seed). -/
theorem C2_cohesion_empty (my_pos my_dir : Vec3) (qs : List (Vec3 × Option Nat))
    (h : cohesionInputs my_pos my_dir qs = []) :
    cohesion_delta my_pos my_dir qs = Vec3.sub Vec3.zero my_pos := by
  unfold cohesion_delta
  rw [h]
  rfl

theorem C2_cohesion_empty_witness :
    cohesionInputs (Vec3.mk 7 0 0) (Vec3.mk 1 0 0) [] = [] ∧
    cohesion_delta (Vec3.mk 7 0 0) (Vec3.mk 1 0 0) [] = Vec3.sub Vec3.zero (Vec3.mk 7 0 0) :=
  ⟨rfl, C2_cohesion_empty (Vec3.mk 7 0 0) (Vec3.mk 1 0 0) [] rfl⟩

theorem seperation_delta_single (my_pos my_dir n : Vec3) (e : Option Nat) (range : ℝ)
    (hf : Vec3.angle_between (Vec3.sub (Vec3.sub my_pos n) my_pos) my_dir < VIEW_ANGLE) :
    seperation_delta my_pos my_dir range [(n, e)] =
      Vec3.divScalar (Vec3.sub my_pos n)
        (max (Vec3.length (Vec3.sub my_pos n)) 0.001 / range) := by
  unfold seperation_delta separationInputs
  simp only [List.map_cons, List.map_nil, List.filterMap_cons, List.filterMap_nil,
    if_pos hf]
  exact average_single _

/-- C7 counterexample: with the agent at the origin heading +x and view radius
100, a single neighbor at distance 20 (position (−20,0,0)) and one at distance
10 (position (−10,0,0)) produce the SAME separation delta (100,0,0): the
magnitude is the constant `range`, it does not strictly increase as the
distance decreases. -/
theorem C7_separation_magnitude_not_increasing :
    seperation_delta (Vec3.mk 0 0 0) (Vec3.mk 1 0 0) 100 [(Vec3.mk (-20) 0 0, some 1)] =
      Vec3.mk 100 0 0 ∧
    seperation_delta (Vec3.mk 0 0 0) (Vec3.mk 1 0 0) 100 [(Vec3.mk (-10) 0 0, some 1)] =
      Vec3.mk 100 0 0 := by
  have hsub20 : Vec3.sub (Vec3.mk 0 0 0) (Vec3.mk (-20) 0 0) = Vec3.mk 20 0 0 := by
    rw [Vec3.sub_mk]
    norm_num
  have hsub10 : Vec3.sub (Vec3.mk 0 0 0) (Vec3.mk (-10) 0 0) = Vec3.mk 10 0 0 := by
    rw [Vec3.sub_mk]
    norm_num
  have hsubb20 : Vec3.sub (Vec3.mk 20 0 0) (Vec3.mk 0 0 0) = Vec3.mk 20 0 0 := by
    rw [Vec3.sub_mk]
    norm_num
  have hsubb10 : Vec3.sub (Vec3.mk 10 0 0) (Vec3.mk 0 0 0) = Vec3.mk 10 0 0 := by
    rw [Vec3.sub_mk]
    norm_num
  constructor
  · rw [seperation_delta_single]
    · rw [hsub20, Vec3.length_mk_x 20 (by norm_num),
        max_eq_left (by norm_num : (0.001 : ℝ) ≤ 20)]
      apply Vec3.ext_eq <;>
      · unfold Vec3.divScalar
        norm_num
    · rw [hsub20, hsubb20, angle_axis_pos 20 (by norm_num)]
      exact view_angle_pos
  · rw [seperation_delta_single]
    · rw [hsub10, Vec3.length_mk_x 10 (by norm_num),
        max_eq_left (by norm_num : (0.001 : ℝ) ≤ 10)]
      apply Vec3.ext_eq <;>
      · unfold Vec3.divScalar
        norm_num
    · rw [hsub10, hsubb10, angle_axis_pos 10 (by norm_num)]
      exact view_angle_pos

/-- C7 amended: for a single neighbor n that passes the separation filter, the
separation delta is a positive multiple of p − n (it always points away from
the neighbor, given a positive view radius), but its magnitude is NOT strictly
increasing as the distance decreases: whenever the distance is at least the
ε floor (0.001), the magnitude equals the view radius `range` — a constant. -/
theorem C7_separation_direction (my_pos my_dir n : Vec3) (e : Option Nat) (range : ℝ)
    (hr : 0 < range)
    (hf : Vec3.angle_between (Vec3.sub (Vec3.sub my_pos n) my_pos) my_dir < VIEW_ANGLE) :
    (∃ c, 0 < c ∧ seperation_delta my_pos my_dir range [(n, e)] =
        Vec3.smul c (Vec3.sub my_pos n)) ∧
    (0.001 ≤ Vec3.length (Vec3.sub my_pos n) →
      Vec3.normSq (seperation_delta my_pos my_dir range [(n, e)]) = range ^ 2) := by
  have hM : (0 : ℝ) < max (Vec3.length (Vec3.sub my_pos n)) 0.001 :=
    lt_of_lt_of_le (by norm_num) (le_max_right _ _)
  rw [seperation_delta_single my_pos my_dir n e range hf, Vec3.divScalar_div_eq_smul]
  constructor
  · exact ⟨_, div_pos hr hM, rfl⟩
  · intro hL
    rw [max_eq_left hL, Vec3.normSq_smul, ← Vec3.sq_length, div_pow,
      div_mul_cancel₀]
    exact pow_ne_zero 2 (ne_of_gt (lt_of_lt_of_le (by norm_num) hL))

theorem C7_separation_direction_witness :
    (∃ c, 0 < c ∧
      seperation_delta (Vec3.mk 0 0 0) (Vec3.mk 1 0 0) 100 [(Vec3.mk (-10) 0 0, some 1)] =
        Vec3.smul c (Vec3.sub (Vec3.mk 0 0 0) (Vec3.mk (-10) 0 0))) ∧
    (0.001 ≤ Vec3.length (Vec3.sub (Vec3.mk 0 0 0) (Vec3.mk (-10) 0 0)) →
      Vec3.normSq (seperation_delta (Vec3.mk 0 0 0) (Vec3.mk 1 0 0) 100
        [(Vec3.mk (-10) 0 0, some 1)]) = 100 ^ 2) := by
  have hsub10 : Vec3.sub (Vec3.mk 0 0 0) (Vec3.mk (-10) 0 0) = Vec3.mk 10 0 0 := by
    rw [Vec3.sub_mk]
    norm_num
  have hsubb10 : Vec3.sub (Vec3.mk 10 0 0) (Vec3.mk 0 0 0) = Vec3.mk 10 0 0 := by
    rw [Vec3.sub_mk]
    norm_num
  apply C7_separation_direction
  · norm_num
  · rw [hsub10, hsubb10, angle_axis_pos 10 (by norm_num)]
    exact view_angle_pos

theorem Vec3.normSq_neg_of (p : Vec3) : Vec3.normSq (Vec3.sub Vec3.zero p) = Vec3.normSq p := by
  unfold Vec3.sub Vec3.zero Vec3.normSq
  ring

theorem near_edge_ne_zero (w h : ℝ) (p : Vec3) (hw : BORDER ≤ w / 2) (hh : BORDER ≤ h / 2)
    (hd : distance_to_edge w h p < BORDER) : p ≠ Vec3.zero := by
  intro heq
  rw [heq] at hd
  unfold distance_to_edge Vec3.zero at hd
  simp only [abs_zero] at hd
  rw [min_lt_iff] at hd
  rcases hd with hd | hd <;> linarith

/-- C8: for every agent, if its distance `d` to the nearest window edge is at
least `BORDER` the edge-avoidance delta is the zero vector; if `d < BORDER`
(in a window that is at least `2·BORDER` wide and high, as any real window
is) the delta is a positive multiple of `world_center − p` (non-zero, directed
toward the world center), and for a fixed position its squared magnitude
strictly increases as `d` decreases (down to the 0.01 floor) — comparing the
same position under two window configurations with distances `d₂ < d₁`. -/
theorem C8_avoid_edges (w h w2 h2 : ℝ) (p : Vec3)
    (hw : BORDER ≤ w / 2) (hh : BORDER ≤ h / 2) :
    (BORDER ≤ distance_to_edge w h p → avoid_delta w h p = Vec3.zero) ∧
    (distance_to_edge w h p < BORDER →
      (∃ c, 0 < c ∧ avoid_delta w h p = Vec3.smul c (Vec3.sub Vec3.zero p)) ∧
      avoid_delta w h p ≠ Vec3.zero ∧
      (0.01 ≤ distance_to_edge w2 h2 p → distance_to_edge w2 h2 p < distance_to_edge w h p →
        Vec3.normSq (avoid_delta w h p) < Vec3.normSq (avoid_delta w2 h2 p))) := by
  constructor
  · intro h1
    unfold avoid_delta
    rw [if_neg (not_lt.mpr h1)]
  · intro hd
    have hp : p ≠ Vec3.zero := near_edge_ne_zero w h p hw hh hd
    have hps : 0 < Vec3.normSq p := Vec3.normSq_pos_of_ne p hp
    have hM1 : (0 : ℝ) < max (distance_to_edge w h p) 0.01 :=
      lt_of_lt_of_le (by norm_num) (le_max_right _ _)
    have hc1 : (0 : ℝ) < 40 / max (distance_to_edge w h p) 0.01 :=
      div_pos (by norm_num) hM1
    have hval1 : avoid_delta w h p =
        Vec3.smul (40 / max (distance_to_edge w h p) 0.01) (Vec3.sub Vec3.zero p) := by
      unfold avoid_delta
      rw [if_pos hd, Vec3.divScalar_div_eq_smul]
    refine ⟨⟨_, hc1, hval1⟩, ?_, ?_⟩
    · intro hzero
      have hns := congrArg Vec3.normSq hzero
      rw [hval1] at hns
      rw [Vec3.normSq_smul, Vec3.normSq_neg_of] at hns
      have hz0 : Vec3.normSq Vec3.zero = 0 := by
        unfold Vec3.normSq Vec3.zero
        norm_num
      rw [hz0] at hns
      have : (40 / max (distance_to_edge w h p) 0.01) ^ 2 * Vec3.normSq p > 0 := by
        positivity
      linarith
    · intro hd2 hlt
      have hd2B : distance_to_edge w2 h2 p < BORDER := lt_trans hlt hd
      have hd1f : (0.01 : ℝ) ≤ distance_to_edge w h p := le_trans hd2 hlt.le
      have hval2 : avoid_delta w2 h2 p =
          Vec3.smul (40 / distance_to_edge w2 h2 p) (Vec3.sub Vec3.zero p) := by
        unfold avoid_delta
        rw [if_pos hd2B, Vec3.divScalar_div_eq_smul, max_eq_left hd2]
      rw [hval1, hval2, Vec3.normSq_smul, Vec3.normSq_smul, Vec3.normSq_neg_of,
        max_eq_left hd1f]
      have hpos2 : (0 : ℝ) < distance_to_edge w2 h2 p := lt_of_lt_of_le (by norm_num) hd2
      have hpos1 : (0 : ℝ) < distance_to_edge w h p := lt_trans hpos2 hlt
      have hcs : 40 / distance_to_edge w h p < 40 / distance_to_edge w2 h2 p :=
        div_lt_div_of_pos_left (by norm_num) hpos2 hlt
      have hcpos : (0 : ℝ) < 40 / distance_to_edge w h p := div_pos (by norm_num) hpos1
      have hc2pos : (0 : ℝ) < 40 / distance_to_edge w2 h2 p := div_pos (by norm_num) hpos2
      have hsq : (40 / distance_to_edge w h p) ^ 2 < (40 / distance_to_edge w2 h2 p) ^ 2 := by
        nlinarith [mul_pos (sub_pos.mpr hcs) (add_pos hc2pos hcpos)]
      exact mul_lt_mul_of_pos_right hsq hps

theorem C8_avoid_edges_witness :
    avoid_delta 800 600 (Vec3.mk 395 0 0) ≠ Vec3.zero ∧
    Vec3.normSq (avoid_delta 800 600 (Vec3.mk 395 0 0)) <
      Vec3.normSq (avoid_delta 796 600 (Vec3.mk 395 0 0)) := by
  have hd1 : distance_to_edge 800 600 (Vec3.mk 395 0 0) = 5 := by
    unfold distance_to_edge
    simp only
    rw [abs_of_nonneg (by norm_num : (0 : ℝ) ≤ 395), abs_zero]
    rw [min_eq_left (by norm_num)]
    norm_num
  have hd2 : distance_to_edge 796 600 (Vec3.mk 395 0 0) = 3 := by
    unfold distance_to_edge
    simp only
    rw [abs_of_nonneg (by norm_num : (0 : ℝ) ≤ 395), abs_zero]
    rw [min_eq_left (by norm_num)]
    norm_num
  have hB := C8_avoid_edges 800 600 796 600 (Vec3.mk 395 0 0)
    (by norm_num [BORDER]) (by norm_num [BORDER])
  obtain ⟨-, hne, hmono⟩ := hB.2 (by rw [hd1]; norm_num [BORDER])
  exact ⟨hne, hmono (by rw [hd2]; norm_num) (by rw [hd2, hd1]; norm_num)⟩

/-- C9: an agent whose velocity is exactly zero at steering time is skipped by
`boid_rules` — `try_normalize` returns `None` and the loop `continue`s, so no
steering record is emitted for it — yet `avoid_edges` (which never looks at
velocities) still sends it an edge-avoidance record, and its position still
appears in the kd-tree snapshot (built from positions only) and hence in any
other agent's radius query that it is close enough to. -/
theorem C9_zero_velocity_agent (args : BoidArgs) (dt w h r : ℝ)
    (birds : List (Nat × Vec3 × Vec3)) (tree : List (Vec3 × Option Nat)) (e : Nat)
    (hz : ∀ v q, (e, v, q) ∈ birds → v = Vec3.zero) :
    (∀ d, (e, d) ∉ boid_rules args dt birds tree) ∧
    (∀ (bp : List (Nat × Vec3)) (p : Vec3), (e, p) ∈ bp →
      (e, Vec3.smul dt (avoid_delta w h p)) ∈ avoid_edges w h dt bp) ∧
    (∀ (p c : Vec3), (e, Vec3.zero, p) ∈ birds → Vec3.normSq (Vec3.sub p c) ≤ r ^ 2 →
      (p, some e) ∈ within_distance (treeOf birds) c r) := by
  refine ⟨?_, ?_, ?_⟩
  · intro d hmem
    unfold boid_rules at hmem
    rw [List.mem_filterMap] at hmem
    obtain ⟨b, hb, hfb⟩ := hmem
    obtain ⟨eb, vb, qb⟩ := b
    cases htn : Vec3.try_normalize vb with
    | none =>
      rw [htn] at hfb
      simp at hfb
    | some dir =>
      rw [htn] at hfb
      simp only [Option.some.injEq, Prod.mk.injEq] at hfb
      obtain ⟨hee, -⟩ := hfb
      have hvz : vb = Vec3.zero := hz vb qb (hee ▸ hb)
      rw [hvz] at htn
      unfold Vec3.try_normalize at htn
      rw [if_pos rfl] at htn
      exact Option.noConfusion htn
  · intro bp p hmem
    unfold avoid_edges
    rw [List.mem_map]
    exact ⟨(e, p), hmem, rfl⟩
  · intro p c hmem hdist
    unfold within_distance treeOf
    rw [List.mem_filterMap]
    refine ⟨(p, some e), ?_, ?_⟩
    · rw [List.mem_map]
      exact ⟨(e, Vec3.zero, p), hmem, rfl⟩
    · rw [if_pos hdist]

theorem C9_zero_velocity_agent_witness :
    (0, Vec3.mk 1 1 1) ∉ boid_rules (BoidArgs.mk 1 1 1 100) 1
        [(0, Vec3.zero, Vec3.mk 5 0 0), (1, Vec3.mk 10 0 0, Vec3.zero)]
        (treeOf [(0, Vec3.zero, Vec3.mk 5 0 0), (1, Vec3.mk 10 0 0, Vec3.zero)]) ∧
    (0, Vec3.smul 1 (avoid_delta 800 600 (Vec3.mk 5 0 0))) ∈
      avoid_edges 800 600 1 [(0, Vec3.mk 5 0 0)] ∧
    (Vec3.mk 5 0 0, some 0) ∈ within_distance
      (treeOf [(0, Vec3.zero, Vec3.mk 5 0 0), (1, Vec3.mk 10 0 0, Vec3.zero)]) Vec3.zero 100 := by
  have hz : ∀ v q,
      ((0 : Nat), v, q) ∈ [(0, Vec3.zero, Vec3.mk 5 0 0), (1, Vec3.mk 10 0 0, Vec3.zero)] →
        v = Vec3.zero := by
    intro v q hvq
    rcases List.mem_cons.mp hvq with h1 | h2
    · exact congrArg (fun t => t.2.1) h1
    · rcases List.mem_cons.mp h2 with h3 | h4
      · exact absurd (congrArg Prod.fst h3) (by norm_num)
      · simp at h4
  have hmain := C9_zero_velocity_agent (BoidArgs.mk 1 1 1 100) 1 800 600 100
    [(0, Vec3.zero, Vec3.mk 5 0 0), (1, Vec3.mk 10 0 0, Vec3.zero)]
    (treeOf [(0, Vec3.zero, Vec3.mk 5 0 0), (1, Vec3.mk 10 0 0, Vec3.zero)]) 0 hz
  refine ⟨hmain.1 (Vec3.mk 1 1 1), hmain.2.1 [(0, Vec3.mk 5 0 0)] (Vec3.mk 5 0 0) (by simp),
    hmain.2.2 (Vec3.mk 5 0 0) Vec3.zero (by simp) ?_⟩
  unfold Vec3.normSq Vec3.sub Vec3.zero
  norm_num

/-- C3: an agent at (0,60,0) with velocity (10,0,0) — heading (1,0,0) — has a
neighbor at (−60,60,0): directly behind it (relative position (−60,0,0), angle
π ≥ VIEW_ANGLE) at distance 60, inside the view radius 100.  The neighbor is
correctly excluded from cohesion and alignment, but it IS included in the
separation computation (contribution (100,0,0)): the source applies the
view-cone filter AFTER mapping each neighbor to `my_pos − p`, so the filter
tests `angle_between(−neighbor_position, heading)` — here the angle of
(60,−60,0), which is π/4 < π/3 — instead of the relative direction.  This
contradicts the claim that a behind-neighbor is excluded from all three
rules. -/
theorem C3_behind_neighbor_in_separation :
    Vec3.try_normalize (Vec3.mk 10 0 0) = some (Vec3.mk 1 0 0) ∧
    (Vec3.mk (-60) 60 0, some 1) ∈
      within_distance [(Vec3.mk (-60) 60 0, some 1)] (Vec3.mk 0 60 0) 100 ∧
    cohesionInputs (Vec3.mk 0 60 0) (Vec3.mk 1 0 0) [(Vec3.mk (-60) 60 0, some 1)] = [] ∧
    alignmentInputs [(1, Vec3.mk (-10) 0 0, Vec3.mk (-60) 60 0)] 0 (Vec3.mk 0 60 0)
      (Vec3.mk 1 0 0) [(Vec3.mk (-60) 60 0, some 1)] = [] ∧
    separationInputs (Vec3.mk 0 60 0) (Vec3.mk 1 0 0) 100 [(Vec3.mk (-60) 60 0, some 1)] =
      [Vec3.mk 100 0 0] := by
  have hsubA : Vec3.sub (Vec3.mk (-60) 60 0) (Vec3.mk 0 60 0) = Vec3.mk (-60) 0 0 := by
    rw [Vec3.sub_mk]
    norm_num
  have hsubB : Vec3.sub (Vec3.mk 0 60 0) (Vec3.mk (-60) 60 0) = Vec3.mk 60 0 0 := by
    rw [Vec3.sub_mk]
    norm_num
  have hsubC : Vec3.sub (Vec3.mk 60 0 0) (Vec3.mk 0 60 0) = Vec3.mk 60 (-60) 0 := by
    rw [Vec3.sub_mk]
    norm_num
  have hang1 : ¬ (Vec3.angle_between (Vec3.sub (Vec3.mk (-60) 60 0) (Vec3.mk 0 60 0))
      (Vec3.mk 1 0 0) < VIEW_ANGLE) := by
    rw [hsubA, angle_axis_neg 60 (by norm_num)]
    exact pi_not_lt_view_angle
  have hang2 : Vec3.angle_between (Vec3.sub (Vec3.mk 60 0 0) (Vec3.mk 0 60 0))
      (Vec3.mk 1 0 0) < VIEW_ANGLE := by
    rw [hsubC, angle_diag_sixty]
    unfold VIEW_ANGLE
    linarith [Real.pi_pos]
  refine ⟨?_, ?_, ?_, ?_, ?_⟩
  · unfold Vec3.try_normalize
    rw [if_neg, Vec3.length_mk_x 10 (by norm_num)]
    · congr 1
      apply Vec3.ext_eq <;>
      · unfold Vec3.smul
        norm_num
    · intro heq
      have hx := congrArg Vec3.x heq
      simp [Vec3.zero] at hx
  · have hd : Vec3.normSq (Vec3.sub (Vec3.mk (-60) 60 0) (Vec3.mk 0 60 0)) ≤ 100 ^ 2 := by
      rw [hsubA]
      unfold Vec3.normSq
      norm_num
    simp [within_distance, hd]
  · simp [cohesionInputs, hang1]
  · simp [alignmentInputs, hang1]
  · have hlen : Vec3.length (Vec3.mk 60 0 0) = 60 := Vec3.length_mk_x 60 (by norm_num)
    have hmax : max (Vec3.length (Vec3.mk 60 0 0)) 0.001 = 60 := by
      rw [hlen]
      exact max_eq_left (by norm_num)
    have hdiv : Vec3.divScalar (Vec3.mk 60 0 0) (60 / 100) = Vec3.mk 100 0 0 := by
      apply Vec3.ext_eq <;>
      · unfold Vec3.divScalar
        norm_num
    simp only [separationInputs, List.map_cons, List.map_nil, hsubB,
      List.filterMap_cons, List.filterMap_nil, if_pos hang2]
    rw [hmax, hdiv]

end Boids
